import Mathlib

/-
Verification development for the universal scraping pipeline (src/hi.py).

The file shallowly embeds the parts of the program the claims are about:
the identity generator `generate_document_id` (MD5 hex digest of the
UTF-8 bytes of the URL), the persistence layer `save_to_mongodb`
(metadata stamping plus a keyed `$set` upsert into the document store),
the content fetcher `fetch_page_content`, the startup configuration
check, and the batch orchestrator `process_urls` /
`process_single_url`.  External collaborators (the rendering service,
the language-model service, the document store connection and the
clock) are modelled as explicit oracle parameters, mirroring the spec's
interface boundary; everything the program itself computes is embedded
as executable Lean functions translated from the source.
-/

set_option maxRecDepth 8192

namespace Scraper

/-! ### MD5

`generate_document_id` is `hashlib.md5(url.encode()).hexdigest()`
(src/hi.py lines 50-52).  The MD5 algorithm (RFC 1321) is embedded here
on `Nat` with explicit reduction modulo `2 ^ 32`, so that digests can be
evaluated by the kernel. -/

/-- Truncate to a 32-bit word. -/
def u32 (x : Nat) : Nat := x % 4294967296

/-- 32-bit left rotation (input assumed `< 2 ^ 32`). -/
def rotl32 (x c : Nat) : Nat :=
  u32 (Nat.lor (u32 (Nat.shiftLeft x c)) (Nat.shiftRight x (32 - c)))

/-- 32-bit bitwise complement (input assumed `< 2 ^ 32`). -/
def not32 (x : Nat) : Nat := Nat.xor x 4294967295

/-- The 64 MD5 round constants `floor(abs(sin(i+1)) * 2^32)`. -/
def md5K : List Nat :=
  [3614090360, 3905402710, 606105819, 3250441966, 4118548399, 1200080426, 2821735955, 4249261313,
   1770035416, 2336552879, 4294925233, 2304563134, 1804603682, 4254626195, 2792965006, 1236535329,
   4129170786, 3225465664, 643717713, 3921069994, 3593408605, 38016083, 3634488961, 3889429448,
   568446438, 3275163606, 4107603335, 1163531501, 2850285829, 4243563512, 1735328473, 2368359562,
   4294588738, 2272392833, 1839030562, 4259657740, 2763975236, 1272893353, 4139469664, 3200236656,
   681279174, 3936430074, 3572445317, 76029189, 3654602809, 3873151461, 530742520, 3299628645,
   4096336452, 1126891415, 2878612391, 4237533241, 1700485571, 2399980690, 4293915773, 2240044497,
   1873313359, 4264355552, 2734768916, 1309151649, 4149444226, 3174756917, 718787259, 3951481745]

/-- The 64 MD5 per-round left-rotation amounts. -/
def md5S : List Nat :=
  [7, 12, 17, 22, 7, 12, 17, 22, 7, 12, 17, 22, 7, 12, 17, 22,
   5, 9, 14, 20, 5, 9, 14, 20, 5, 9, 14, 20, 5, 9, 14, 20,
   4, 11, 16, 23, 4, 11, 16, 23, 4, 11, 16, 23, 4, 11, 16, 23,
   6, 10, 15, 21, 6, 10, 15, 21, 6, 10, 15, 21, 6, 10, 15, 21]

/-- `n` bytes of `x`, little-endian. -/
def leBytes : Nat → Nat → List Nat
  | 0, _ => []
  | n + 1, x => x % 256 :: leBytes n (x / 256)

/-- MD5 padding: append `0x80`, zero bytes up to 56 mod 64, then the
bit length as 8 little-endian bytes. -/
def md5Pad (msg : List Nat) : List Nat :=
  msg ++ 128 :: (List.replicate ((119 - msg.length % 64) % 64) 0 ++ leBytes 8 (8 * msg.length))

/-- Word `j` (0..15) of a 64-byte chunk, little-endian. -/
def chunkWord (b : List Nat) (j : Nat) : Nat :=
  b.getD (4 * j) 0 + 256 * b.getD (4 * j + 1) 0 +
    65536 * b.getD (4 * j + 2) 0 + 16777216 * b.getD (4 * j + 3) 0

/-- One MD5 round `i` (0..63) on state `(a, b, c, d)` over chunk `b64`. -/
def md5Round (b64 : List Nat) (st : Nat × Nat × Nat × Nat) (i : Nat) :
    Nat × Nat × Nat × Nat :=
  let a := st.1
  let b := st.2.1
  let c := st.2.2.1
  let d := st.2.2.2
  let f :=
    if i < 16 then Nat.lor (Nat.land b c) (Nat.land (not32 b) d)
    else if i < 32 then Nat.lor (Nat.land d b) (Nat.land (not32 d) c)
    else if i < 48 then Nat.xor b (Nat.xor c d)
    else Nat.xor c (Nat.lor b (not32 d))
  let g :=
    if i < 16 then i
    else if i < 32 then (5 * i + 1) % 16
    else if i < 48 then (3 * i + 5) % 16
    else (7 * i) % 16
  let f2 := u32 (f + a + md5K.getD i 0 + chunkWord b64 g)
  (d, u32 (b + rotl32 f2 (md5S.getD i 0)), b, c)

/-- Process one 64-byte chunk: 64 rounds, then add into the state. -/
def md5Chunk (st : Nat × Nat × Nat × Nat) (b64 : List Nat) : Nat × Nat × Nat × Nat :=
  let r := (List.range 64).foldl (md5Round b64) st
  (u32 (st.1 + r.1), u32 (st.2.1 + r.2.1), u32 (st.2.2.1 + r.2.2.1), u32 (st.2.2.2 + r.2.2.2))

/-- Process a padded message 64 bytes at a time.  The first argument is
fuel bounding the number of chunks; any fuel at least the message length
suffices, and structural recursion on it keeps the definition
kernel-reducible. -/
def md5Loop : Nat → Nat × Nat × Nat × Nat → List Nat → Nat × Nat × Nat × Nat
  | 0, st, _ => st
  | _ + 1, st, [] => st
  | fuel + 1, st, msg => md5Loop fuel (md5Chunk st (msg.take 64)) (msg.drop 64)

/-- The 16 MD5 digest bytes of a byte string. -/
def md5Digest (msg : List Nat) : List Nat :=
  let padded := md5Pad msg
  let r := md5Loop padded.length (1732584193, 4023233417, 2562383102, 271733878) padded
  leBytes 4 r.1 ++ leBytes 4 r.2.1 ++ leBytes 4 r.2.2.1 ++ leBytes 4 r.2.2.2

/-- Lowercase hex character for a nibble. -/
def hexChar (n : Nat) : Char := if n < 10 then Char.ofNat (48 + n) else Char.ofNat (87 + n)

/-- Lowercase hex rendering of a byte string, two characters per byte. -/
def bytesHex : List Nat → List Char
  | [] => []
  | b :: rest => hexChar (b / 16) :: hexChar (b % 16) :: bytesHex rest

/-- Lowercase hex digest of a byte string, as `hashlib`'s `hexdigest`. -/
def md5Hex (msg : List Nat) : String := String.mk (bytesHex (md5Digest msg))

/-- UTF-8 encoding of one code point. -/
def charUtf8 (c : Char) : List Nat :=
  let n := c.toNat
  if n < 128 then [n]
  else if n < 2048 then [192 + n / 64, 128 + n % 64]
  else if n < 65536 then [224 + n / 4096, 128 + (n / 64) % 64, 128 + n % 64]
  else [240 + n / 262144, 128 + (n / 4096) % 64, 128 + (n / 64) % 64, 128 + n % 64]

/-- UTF-8 encoding of a list of characters. -/
def strUtf8 : List Char → List Nat
  | [] => []
  | c :: rest => charUtf8 c ++ strUtf8 rest

/-- UTF-8 bytes of a string, as Python's `str.encode()`. -/
def utf8Bytes (s : String) : List Nat := strUtf8 s.data

/-- src/hi.py lines 50-52: `generate_document_id` returns
`hashlib.md5(url.encode()).hexdigest()`. -/
def generate_document_id (url : String) : String := md5Hex (utf8Bytes url)

/-- First string of a published pair of distinct 72-byte ASCII strings
with equal MD5 digests. -/
def collA : String := "TEXTCOLLBYfGiJUETHQ4hAcKSMd5zYpgqf1YRDhkmxHkhPWptrkoyz28wnI9V0aHeAuaKnak"

/-- Second string of the colliding pair: differs from `collA` in one
character yet has the same MD5 digest. -/
def collB : String := "TEXTCOLLBYfGiJUETHQ4hEcKSMd5zYpgqf1YRDhkmxHkhPWptrkoyz28wnI9V0aHeAuaKnak"

/-! ### JSON-like documents and Python dict operations

The records flowing through the pipeline are Python dicts obtained from
`json.loads`.  They are embedded as association lists with insertion
order, mirroring Python dict semantics: assignment to an existing key
replaces its value in place, assignment to a fresh key appends. -/

/-- A JSON-like value.  `jtime t` models the ISO-8601 timestamp string
produced by `datetime.now().isoformat()`: the clock is embedded as a
`Nat` whose order corresponds to chronological (equivalently,
lexicographic ISO string) order. -/
inductive JValue where
  | null
  | jbool (b : Bool)
  | jnum (n : Int)
  | jstr (s : String)
  | jtime (t : Nat)
  | jarr (elems : List JValue)
  | jobj (fields : List (String × JValue))

/-- A Python dict with string keys, in insertion order. -/
abbrev Doc := List (String × JValue)

/-- Dict lookup (`d[k]` / `d.get(k)`): value at the first matching key. -/
def dGet : Doc → String → Option JValue
  | [], _ => none
  | (k, v) :: rest, key => if k = key then some v else dGet rest key

/-- Python `k in d`. -/
def dHas (d : Doc) (k : String) : Bool := (dGet d k).isSome

/-- Dict assignment `d[k] = v`: replace the value at an existing key in
place, append otherwise. -/
def dSet : Doc → String → JValue → Doc
  | [], key, v => [(key, v)]
  | (k, w) :: rest, key, v =>
      if k = key then (k, v) :: rest else (k, w) :: dSet rest key v

/-- Python `d.update(kvs)`: assign each pair in order. -/
def dUpdate (d : Doc) (kvs : List (String × JValue)) : Doc :=
  kvs.foldl (fun acc kv => dSet acc kv.1 kv.2) d

/-- Keys of a dict are pairwise distinct — an invariant of every
genuine Python dict. -/
abbrev dNodup (d : Doc) : Prop := (d.map Prod.fst).Nodup

/-! ### The document store

The MongoDB collection is embedded as an association list from `_id`
keys to documents.  `update_one({'_id': id}, {'$set': fields},
upsert=True)` sets each given top-level field on the matching document,
or inserts the fields as a fresh document when no document has the
key. -/

/-- The document store: `_id` key paired with the document fields. -/
abbrev Store := List (String × Doc)

/-- Lookup of the document stored under a key. -/
def sGet : Store → String → Option Doc
  | [], _ => none
  | (k, d) :: rest, key => if k = key then some d else sGet rest key

/-- MongoDB `update_one` with a `$set` update and `upsert=True`, keyed
by `_id`: merge the fields into the first matching document, or append
a new document under the key when absent. -/
def mongoUpsert : Store → String → Doc → Store
  | [], key, fields => [(key, fields)]
  | (k, d) :: rest, key, fields =>
      if k = key then (k, dUpdate d fields) :: rest
      else (k, d) :: mongoUpsert rest key fields

/-- Number of stored documents under a given key. -/
def countId (s : Store) (key : String) : Nat :=
  (s.filter (fun e => e.1 = key)).length

/-! ### Persistence layer: `save_to_mongodb` (src/hi.py lines 54-81)

The function mutates the caller's record: it ensures a `metadata` dict
exists, stamps `source_url`, `scrape_timestamp` and `_id` into it, then
issues the keyed upsert.  Any exception is caught and turns into a
`False` return: a pre-existing non-dict `metadata` value makes
`.update` raise before any mutation, and a store-level error (modelled
by the `storeOk` flag for the external connection) makes `update_one`
raise after the stamping has already happened.  The record (as mutated),
the store and the returned Boolean are all surfaced. -/

/-- Result of `save_to_mongodb`: the store after the call, the caller's
record after in-place mutation, and the function's Boolean return. -/
structure SaveResult where
  store : Store
  data : Doc
  ok : Bool

/-- src/hi.py lines 54-81.  `storeOk` models whether the external
`update_one` call succeeds (a store-level error raises and is caught). -/
def save_to_mongodb (storeOk : Bool) (store : Store) (data : Doc) (url : String)
    (now : Nat) : SaveResult :=
  let doc_id := generate_document_id url
  let data1 := if dHas data "metadata" then data else dSet data "metadata" (.jobj [])
  match dGet data1 "metadata" with
  | some (.jobj m) =>
      let m2 := dUpdate m
        [("source_url", .jstr url), ("scrape_timestamp", .jtime now), ("_id", .jstr doc_id)]
      let data2 := dSet data1 "metadata" (.jobj m2)
      if storeOk then
        { store := mongoUpsert store doc_id data2, data := data2, ok := true }
      else
        { store := store, data := data2, ok := false }
  | _ => { store := store, data := data1, ok := false }

/-! ### Content fetcher: `fetch_page_content` (src/hi.py lines 83-107)

The single `requests.post` call is embedded as one consultation of a
network oracle with the request the code builds.  On an HTTP error
status (4xx/5xx) `raise_for_status` raises and the handler returns
`None` after printing the response body; on a network-level exception
(timeout, connection error, DNS) the handler likewise returns `None`;
otherwise the parsed JSON body is returned (an unparseable body raises
a `requests` JSON error, which the handler also turns into `None`). -/

/-- The outbound request the fetcher builds: endpoint
`https://r.jina.ai/`, the URL payload, the 30-second timeout and the
two capability headers. -/
structure HttpRequest where
  endpoint : String
  payloadUrl : String
  timeoutSeconds : Nat
  withLinksSummary : Bool
  withImagesSummary : Bool
  deriving DecidableEq, Repr

/-- src/hi.py lines 89-94: the request issued for a URL. -/
def jinaRequest (url : String) : HttpRequest :=
  { endpoint := "https://r.jina.ai/", payloadUrl := url, timeoutSeconds := 30,
    withLinksSummary := true, withImagesSummary := true }

/-- What the network returns for one request: a response with status
code, body text and parsed JSON body (`none` when the body is not valid
JSON), or a raised network-level exception with its message. -/
inductive HttpOutcome where
  | resp (status : Nat) (text : String) (json : Option Doc)
  | exn (cause : String)

/-- Result of `fetch_page_content`: the returned value (`none` models
Python `None`), the diagnostic payloads printed on the error paths, and
the requests issued during the call. -/
structure FetchResult where
  result : Option Doc
  diagLog : List String
  requested : List HttpRequest

/-- src/hi.py lines 83-107, over a network oracle `respond`. -/
def fetch_page_content (respond : HttpRequest → HttpOutcome) (url : String) : FetchResult :=
  let req := jinaRequest url
  match respond req with
  | .resp status text j =>
      if status ≠ 200 then
        if 400 ≤ status ∧ status < 600 then
          { result := none, diagLog := [text], requested := [req] }
        else
          { result := j, diagLog := [text], requested := [req] }
      else
        { result := j, diagLog := [], requested := [req] }
  | .exn cause => { result := none, diagLog := [cause], requested := [req] }

/-! ### Startup configuration check (src/hi.py lines 17-23)

`JINA_API_KEY` is read and the module raises when it is unset or empty;
`OPENAI_API_KEY` and `MONGODB_URI` are read without any check.  The
check runs at import time, before any URL is processed. -/

/-- Python truthiness of an optional environment string: `None` and the
empty string are falsy. -/
def pyTruthy : Option String → Bool
  | none => false
  | some s => s ≠ ""

/-- The configuration the module keeps after startup. -/
structure Config where
  jinaKey : String
  openaiKey : Option String
  mongoUri : Option String

/-- src/hi.py lines 17-23: fail fast when the rendering credential is
missing, keep the optional credentials unchecked. -/
def startup (jina openaiKey mongoUri : Option String) : Except String Config :=
  if pyTruthy jina then
    .ok { jinaKey := jina.getD "", openaiKey := openaiKey, mongoUri := mongoUri }
  else
    .error "JINA_API_KEY not found in environment variables"

/-! ### Batch orchestrator (src/hi.py lines 305-361)

`process_urls` iterates the URL list in order; for each URL it fetches,
then — when the response is truthy and has a `data` field — extracts,
then — when the extracted dict is truthy — saves to the store and
appends the (mutated) record to the accumulator; at the end, when an
output path was supplied, it writes the accumulator once as a single
JSON array.  The external collaborators are collected in `Env`:
`respond` is the rendering network at each step, `extract` the combined
language-model call and JSON parse of `extract_structured_data`
(src/hi.py lines 109-303, whose try/except turns every collaborator or
parse error into `None`), `storeOk` whether the store write at a step
succeeds, and `clock` the value of `datetime.now()` at each step. -/

/-- The external collaborators of one run, indexed by the position of
the URL being processed. -/
structure Env where
  respond : Nat → HttpRequest → HttpOutcome
  extract : String → String → Option Doc
  storeOk : Nat → Bool
  clock : Nat → Nat

/-- Per-URL outcome, as observable from the per-URL log lines and
effects: the fetch produced no usable content (no extraction, no
persistence); the extraction produced nothing (no persistence); or the
full pipeline ran, with the Boolean result of the store write. -/
inductive Outcome where
  | noContent
  | extractFailed
  | processed (saved : Bool)
  deriving DecidableEq, Repr

/-- src/hi.py lines 310-311 and 349-350:
`page_content['data'].get('content', '')` under the guard
`page_content and 'data' in page_content`.  A `data` field that is not
an object is outside the rendering collaborator's interface (§6 of the
spec) and is read as the empty string here. -/
def contentOf (pc : Doc) : String :=
  match dGet pc "data" with
  | some (.jobj dd) =>
      match dGet dd "content" with
      | some (.jstr s) => s
      | _ => ""
  | _ => ""

/-- Result of processing one URL inside the batch loop. -/
structure StepResult where
  store : Store
  record : Option Doc
  outcome : Outcome

/-- The loop body of `process_urls` (src/hi.py lines 345-356) for the
URL at position `i`: fetch; if the response is truthy and has `data`,
extract; if the extracted dict is truthy, save and keep the mutated
record. -/
def processStep (env : Env) (i : Nat) (url : String) (store : Store) : StepResult :=
  match (fetch_page_content (env.respond i) url).result with
  | some pc =>
      if !pc.isEmpty && dHas pc "data" then
        match env.extract (contentOf pc) url with
        | some sd =>
            if sd.isEmpty then { store := store, record := none, outcome := .extractFailed }
            else
              let r := save_to_mongodb (env.storeOk i) store sd url (env.clock i)
              { store := r.store, record := some r.data, outcome := .processed r.ok }
        | none => { store := store, record := none, outcome := .extractFailed }
      else { store := store, record := none, outcome := .noContent }
  | none => { store := store, record := none, outcome := .noContent }

/-- Accumulated state of the batch loop: the store, the `all_results`
accumulator and the per-URL outcomes, each in input order. -/
structure BatchAcc where
  store : Store
  results : List Doc
  outcomes : List Outcome

/-- The batch loop from position `i` on: each URL's fetch, extract and
persist run to completion before the next URL starts. -/
def processFrom (env : Env) (i : Nat) (urls : List String) (store : Store) : BatchAcc :=
  match urls with
  | [] => { store := store, results := [], outcomes := [] }
  | u :: rest =>
      let s := processStep env i u store
      let b := processFrom env (i + 1) rest s.store
      { store := b.store, results := s.record.toList ++ b.results,
        outcomes := s.outcome :: b.outcomes }

/-- src/hi.py lines 335-338: `save_results` serializes a record list to
the named file; a write is embedded as the pair of file name and
content. -/
def save_results (results : List Doc) (output_file : String) : String × List Doc :=
  (output_file, results)

/-- Result of a whole batch run: final store, `all_results`, per-URL
outcomes, and the file writes performed. -/
structure RunResult where
  store : Store
  results : List Doc
  outcomes : List Outcome
  writes : List (String × List Doc)

/-- src/hi.py lines 340-361: `process_urls` over the loaded URL list —
the loop, then a single optional export of the accumulator. -/
def process_urls (env : Env) (urls : List String) (store : Store)
    (output_file : Option String) : RunResult :=
  let b := processFrom env 0 urls store
  { store := b.store, results := b.results, outcomes := b.outcomes,
    writes :=
      match output_file with
      | some f => [save_results b.results f]
      | none => [] }

/-- Result of `process_single_url`. -/
structure SingleResult where
  store : Store
  record : Option Doc
  outcome : Outcome
  writes : List (String × List Doc)

/-- src/hi.py lines 305-323: `process_single_url` — one fetch, extract
and save, with an optional export of the one-record list, performed
only when extraction succeeded. -/
def process_single_url (env : Env) (store : Store) (url : String)
    (output_file : Option String) : SingleResult :=
  match (fetch_page_content (env.respond 0) url).result with
  | some pc =>
      if !pc.isEmpty && dHas pc "data" then
        match env.extract (contentOf pc) url with
        | some sd =>
            if sd.isEmpty then { store := store, record := none, outcome := .extractFailed, writes := [] }
            else
              let r := save_to_mongodb (env.storeOk 0) store sd url (env.clock 0)
              { store := r.store, record := some r.data, outcome := .processed r.ok,
                writes :=
                  match output_file with
                  | some f => [save_results [r.data] f]
                  | none => [] }
        | none => { store := store, record := none, outcome := .extractFailed, writes := [] }
      else { store := store, record := none, outcome := .noContent, writes := [] }
  | none => { store := store, record := none, outcome := .noContent, writes := [] }

/-- The whole program on a URL list: the startup check runs first and a
missing rendering credential halts before any URL is processed. -/
def runProgram (jina openaiKey mongoUri : Option String) (env : Env)
    (urls : List String) (output_file : Option String) : Except String RunResult :=
  match startup jina openaiKey mongoUri with
  | .error e => .error e
  | .ok _ => .ok (process_urls env urls [] output_file)

/-! ### Derived notions used in the statements -/

/-- The record's `metadata` value is absent or a dict — true of every
`StructuredRecord` in the data model (§3 of the spec), where `metadata`
is an object block.  When it fails (a collaborator returned `metadata`
as a scalar), `data['metadata'].update` raises and `save_to_mongodb`
returns `False` without mutating the record. -/
def metadataOkb (d : Doc) : Bool :=
  match dGet d "metadata" with
  | none => true
  | some (.jobj _) => true
  | some _ => false

/-- The fields of the record's `metadata` block, empty when absent. -/
def metaFields (d : Doc) : List (String × JValue) :=
  match dGet d "metadata" with
  | some (.jobj m) => m
  | _ => []

/-- The record as `save_to_mongodb` stamps it: the `metadata` block
(created empty when absent) updated with `source_url`,
`scrape_timestamp` and `_id`. -/
def stamped (data : Doc) (url : String) (t : Nat) : Doc :=
  dSet (if dHas data "metadata" then data else dSet data "metadata" (.jobj []))
    "metadata"
    (.jobj (dUpdate (metaFields data)
      [("source_url", .jstr url), ("scrape_timestamp", .jtime t),
       ("_id", .jstr (generate_document_id url))]))

/-- Lookup of a key inside a record's `metadata` block. -/
def metaGet (d : Doc) (k : String) : Option JValue :=
  match dGet d "metadata" with
  | some (.jobj m) => dGet m k
  | _ => none

/-- The orchestrator's guard `page_content and 'data' in page_content`
on the fetch result: a truthy (non-`None`, non-empty) response that has
a `data` field. -/
def contentPresent : Option Doc → Bool
  | some pc => !pc.isEmpty && dHas pc "data"
  | none => false

/-- The fetch result seen by the batch loop at position `i`. -/
def fetchResult (env : Env) (i : Nat) (url : String) : Option Doc :=
  (fetch_page_content (env.respond i) url).result

/-- The outcome of the URL at position `i`, as a pure function of the
collaborators at that position alone: the loop body's outcome neither
reads nor depends on the accumulated store. -/
def stepOutcome (env : Env) (i : Nat) (url : String) : Outcome :=
  match fetchResult env i url with
  | some pc =>
      if !pc.isEmpty && dHas pc "data" then
        match env.extract (contentOf pc) url with
        | some sd =>
            if sd.isEmpty then .extractFailed
            else .processed (metadataOkb sd && env.storeOk i)
        | none => .extractFailed
      else .noContent
  | none => .noContent

/-- The record the URL at position `i` contributes to `all_results`
(the extracted dict as mutated by `save_to_mongodb`), again independent
of the accumulated store. -/
def stepRecord (env : Env) (i : Nat) (url : String) : Option Doc :=
  match fetchResult env i url with
  | some pc =>
      if !pc.isEmpty && dHas pc "data" then
        match env.extract (contentOf pc) url with
        | some sd =>
            if sd.isEmpty then none
            else some ((save_to_mongodb (env.storeOk i) [] sd url (env.clock i)).data)
        | none => none
      else none
  | none => none

/-- The per-URL outcomes from position `i` on, one per URL in input
order. -/
def outcomesFrom (env : Env) (i : Nat) : List String → List Outcome
  | [] => []
  | u :: rest => stepOutcome env i u :: outcomesFrom env (i + 1) rest

/-- The accumulated records from position `i` on, in input order. -/
def recordsFrom (env : Env) (i : Nat) : List String → List Doc
  | [] => []
  | u :: rest => (stepRecord env i u).toList ++ recordsFrom env (i + 1) rest

/-! ### Concrete fixtures for witnesses and counterexamples -/

/-- A sample URL. -/
def urlW : String := "https://a.test/p1"

/-- A second sample URL. -/
def urlW2 : String := "https://a.test/p2"

/-- A third sample URL. -/
def urlW3 : String := "https://a.test/p3"

/-- A sample rendering-collaborator response body with `data.content`. -/
def pcW : Doc := [("data", .jobj [("content", .jstr "hello")])]

/-- A sample extracted record with a `metadata` block. -/
def sdW : Doc := [("product_details", .null), ("metadata", .jobj [("schema_version", .jstr "1.0")])]

/-- A sample extracted record with no `metadata` key. -/
def sdW2 : Doc := [("product_details", .null)]

/-- Sample collaborators: the fetch at position 1 times out, every
other fetch returns a good response; extraction always yields `sdW`;
the store is healthy; the clock ticks from 100. -/
def envW : Env :=
  { respond := fun i _ => if i = 1 then .exn "timeout" else .resp 200 "ok" (some pcW),
    extract := fun _ _ => some sdW,
    storeOk := fun _ => true,
    clock := fun i => 100 + i }

/-- A store already holding, under `urlW`'s identity, a document with a
field `stale` that the next extraction does not produce. -/
def staleStore : Store := [(generate_document_id urlW, [("stale", .jstr "old")])]

/-! ### Dict and store lemmas -/

theorem dGet_dSet_self (d : Doc) (k : String) (v : JValue) :
    dGet (dSet d k v) k = some v := by
  induction d with
  | nil => simp [dGet, dSet]
  | cons p rest ih =>
      by_cases h : p.1 = k
      · simp [dGet, dSet, h]
      · simp [dGet, dSet, h, ih]

theorem dGet_dSet_ne (d : Doc) (k k' : String) (v : JValue) (h : k' ≠ k) :
    dGet (dSet d k v) k' = dGet d k' := by
  have h' : ¬ k = k' := fun hh => h hh.symm
  induction d with
  | nil => simp [dGet, dSet, h']
  | cons p rest ih =>
      by_cases hk : p.1 = k
      · subst hk
        simp [dGet, dSet, h']
      · simp [dGet, dSet, hk, ih]

theorem dGet_eq_none_of_not_mem (d : Doc) (k : String)
    (h : k ∉ d.map Prod.fst) : dGet d k = none := by
  induction d with
  | nil => rfl
  | cons p rest ih =>
      simp only [List.map_cons, List.mem_cons] at h
      push_neg at h
      have h1 : ¬ p.1 = k := fun hh => h.1 hh.symm
      simp [dGet, h1, ih h.2]

theorem mem_keys_dSet (d : Doc) (k a : String) (v : JValue)
    (h : a ∈ (dSet d k v).map Prod.fst) : a ∈ d.map Prod.fst ∨ a = k := by
  induction d with
  | nil => simpa [dSet] using h
  | cons p rest ih =>
      by_cases hk : p.1 = k
      · simp only [dSet, if_pos hk, List.map_cons, List.mem_cons] at h ⊢
        tauto
      · simp only [dSet, if_neg hk, List.map_cons, List.mem_cons] at h ⊢
        rcases h with h | h
        · tauto
        · rcases ih h with h | h <;> tauto

theorem dNodup_dSet (d : Doc) (k : String) (v : JValue) (h : dNodup d) :
    dNodup (dSet d k v) := by
  induction d with
  | nil => simp [dNodup, dSet]
  | cons p rest ih =>
      simp only [dNodup, List.map_cons, List.nodup_cons] at h
      by_cases hk : p.1 = k
      · simpa [dNodup, dSet, hk] using h
      · have hr := ih h.2
        simp only [dNodup, dSet, if_neg hk, List.map_cons, List.nodup_cons]
        refine ⟨fun hm => ?_, hr⟩
        rcases mem_keys_dSet rest k p.1 v hm with hm | hm
        · exact h.1 hm
        · exact hk hm

theorem dGet_dUpdate (d : Doc) (kvs : List (String × JValue)) (k : String)
    (hf : (kvs.map Prod.fst).Nodup) :
    dGet (dUpdate d kvs) k =
      match dGet kvs k with
      | some v => some v
      | none => dGet d k := by
  induction kvs generalizing d with
  | nil => simp [dUpdate, dGet]
  | cons p rest ih =>
      simp only [List.map_cons, List.nodup_cons] at hf
      have step : dUpdate d (p :: rest) = dUpdate (dSet d p.1 p.2) rest := rfl
      rw [step, ih (dSet d p.1 p.2) hf.2]
      by_cases hk : p.1 = k
      · subst hk
        have hrest : dGet rest p.1 = none :=
          dGet_eq_none_of_not_mem rest p.1 hf.1
        simp [dGet, hrest, dGet_dSet_self]
      · simp [dGet, hk, dGet_dSet_ne d p.1 k p.2 (fun hh => hk hh.symm)]

theorem sGet_mongoUpsert_self (s : Store) (key : String) (f : Doc) :
    sGet (mongoUpsert s key f) key =
      some (match sGet s key with
            | some d => dUpdate d f
            | none => f) := by
  induction s with
  | nil => simp [mongoUpsert, sGet]
  | cons p rest ih =>
      by_cases hk : p.1 = key
      · simp [mongoUpsert, sGet, hk]
      · simp [mongoUpsert, sGet, hk, ih]

theorem sGet_mongoUpsert_ne (s : Store) (key k : String) (f : Doc) (h : k ≠ key) :
    sGet (mongoUpsert s key f) k = sGet s k := by
  have h' : ¬ key = k := fun hh => h hh.symm
  induction s with
  | nil => simp [mongoUpsert, sGet, h']
  | cons p rest ih =>
      by_cases hk : p.1 = key
      · subst hk
        simp [mongoUpsert, sGet, h']
      · simp [mongoUpsert, sGet, hk, ih]

theorem sGet_mongoUpsert_isSome (s : Store) (key k : String) (f : Doc)
    (h : (sGet s k).isSome) : (sGet (mongoUpsert s key f) k).isSome := by
  by_cases hk : k = key
  · subst hk
    rw [sGet_mongoUpsert_self]
    rfl
  · rwa [sGet_mongoUpsert_ne s key k f hk]

theorem mem_keys_mongoUpsert (s : Store) (key a : String) (f : Doc)
    (h : a ∈ (mongoUpsert s key f).map Prod.fst) :
    a ∈ s.map Prod.fst ∨ a = key := by
  induction s with
  | nil => simpa [mongoUpsert] using h
  | cons p rest ih =>
      by_cases hk : p.1 = key
      · simp only [mongoUpsert, if_pos hk, List.map_cons, List.mem_cons] at h ⊢
        tauto
      · simp only [mongoUpsert, if_neg hk, List.map_cons, List.mem_cons] at h ⊢
        rcases h with h | h
        · tauto
        · rcases ih h with h | h <;> tauto

theorem storeNodup_mongoUpsert (s : Store) (key : String) (f : Doc)
    (h : (s.map Prod.fst).Nodup) : ((mongoUpsert s key f).map Prod.fst).Nodup := by
  induction s with
  | nil => simp [mongoUpsert]
  | cons p rest ih =>
      simp only [List.map_cons, List.nodup_cons] at h
      by_cases hk : p.1 = key
      · simpa [mongoUpsert, hk] using h
      · have hr := ih h.2
        simp only [mongoUpsert, if_neg hk, List.map_cons, List.nodup_cons]
        refine ⟨fun hm => ?_, hr⟩
        rcases mem_keys_mongoUpsert rest key p.1 f hm with hm | hm
        · exact h.1 hm
        · exact hk hm

theorem countId_eq_zero (s : Store) (key : String) (h : key ∉ s.map Prod.fst) :
    countId s key = 0 := by
  induction s with
  | nil => rfl
  | cons p rest ih =>
      simp only [List.map_cons, List.mem_cons] at h
      push_neg at h
      have h1 : ¬ p.1 = key := fun hh => h.1 hh.symm
      have h2 := ih h.2
      simp only [countId, List.filter_cons] at h2 ⊢
      simp [h1, h2]

theorem countId_eq_one (s : Store) (key : String)
    (hnd : (s.map Prod.fst).Nodup) (hs : (sGet s key).isSome) :
    countId s key = 1 := by
  induction s with
  | nil => simp [sGet] at hs
  | cons p rest ih =>
      simp only [List.map_cons, List.nodup_cons] at hnd
      by_cases hk : p.1 = key
      · have hz : countId rest key = 0 := by
          apply countId_eq_zero
          rw [← hk]
          exact hnd.1
        simp only [countId, List.filter_cons] at hz ⊢
        simp [hk, hz]
      · have hs' : (sGet rest key).isSome := by
          simpa [sGet, hk] using hs
        have h2 := ih hnd.2 hs'
        simp only [countId, List.filter_cons] at h2 ⊢
        simp [hk, h2]

/-! ### Characterization of `save_to_mongodb` -/

theorem save_spec (ok : Bool) (store : Store) (data : Doc) (url : String) (now : Nat)
    (h : metadataOkb data = true) :
    save_to_mongodb ok store data url now =
      { store :=
          if ok then mongoUpsert store (generate_document_id url) (stamped data url now)
          else store,
        data := stamped data url now, ok := ok } := by
  unfold save_to_mongodb stamped metaFields
  unfold metadataOkb at h
  rcases hv : dGet data "metadata" with _ | v
  all_goals rw [hv] at h
  · have hHas : dHas data "metadata" = false := by simp [dHas, hv]
    simp only [hHas, Bool.false_eq_true, if_false, dGet_dSet_self]
    cases ok <;> rfl
  · have hHas : dHas data "metadata" = true := by simp [dHas, hv]
    cases v with
    | jobj m =>
        simp only [hHas, if_true, hv]
        cases ok <;> rfl
    | null => exact Bool.noConfusion h
    | jbool b => exact Bool.noConfusion h
    | jnum n => exact Bool.noConfusion h
    | jstr s => exact Bool.noConfusion h
    | jtime t => exact Bool.noConfusion h
    | jarr xs => exact Bool.noConfusion h

theorem save_bad (ok : Bool) (store : Store) (data : Doc) (url : String) (now : Nat)
    (h : metadataOkb data = false) :
    save_to_mongodb ok store data url now = { store := store, data := data, ok := false } := by
  unfold save_to_mongodb
  unfold metadataOkb at h
  rcases hv : dGet data "metadata" with _ | v
  all_goals rw [hv] at h
  · exact Bool.noConfusion h
  · have hHas : dHas data "metadata" = true := by simp [dHas, hv]
    cases v with
    | jobj m => exact Bool.noConfusion h
    | null => simp only [hHas, if_true, hv]
    | jbool b => simp only [hHas, if_true, hv]
    | jnum n => simp only [hHas, if_true, hv]
    | jstr s => simp only [hHas, if_true, hv]
    | jtime t => simp only [hHas, if_true, hv]
    | jarr xs => simp only [hHas, if_true, hv]

theorem save_ok_eq (ok : Bool) (store : Store) (data : Doc) (url : String) (now : Nat) :
    (save_to_mongodb ok store data url now).ok = (metadataOkb data && ok) := by
  by_cases h : metadataOkb data = true
  · rw [save_spec ok store data url now h, h]
    simp
  · have h' : metadataOkb data = false := by simpa using h
    rw [save_bad ok store data url now h', h']
    simp

theorem save_data_eq (ok : Bool) (store : Store) (data : Doc) (url : String) (now : Nat) :
    (save_to_mongodb ok store data url now).data =
      if metadataOkb data then stamped data url now else data := by
  by_cases h : metadataOkb data = true
  · rw [save_spec ok store data url now h, h]
    simp
  · have h' : metadataOkb data = false := by simpa using h
    rw [save_bad ok store data url now h', h']
    simp

theorem save_data_indep (ok ok' : Bool) (store store' : Store) (data : Doc)
    (url : String) (now : Nat) :
    (save_to_mongodb ok store data url now).data =
      (save_to_mongodb ok' store' data url now).data := by
  rw [save_data_eq, save_data_eq]

/-! ### Lemmas about the stamped record -/

theorem dGet_stamped_metadata (d : Doc) (u : String) (t : Nat) :
    dGet (stamped d u t) "metadata" =
      some (.jobj (dUpdate (metaFields d)
        [("source_url", .jstr u), ("scrape_timestamp", .jtime t),
         ("_id", .jstr (generate_document_id u))])) := by
  unfold stamped
  exact dGet_dSet_self _ _ _

theorem metaGet_stamped (d : Doc) (u : String) (t : Nat) (k : String) :
    metaGet (stamped d u t) k =
      dGet (dUpdate (metaFields d)
        [("source_url", .jstr u), ("scrape_timestamp", .jtime t),
         ("_id", .jstr (generate_document_id u))]) k := by
  unfold metaGet
  rw [dGet_stamped_metadata]

theorem stampFieldsNodup (u : String) (t : Nat) (idv : String) :
    (List.map Prod.fst [("source_url", JValue.jstr u), ("scrape_timestamp", JValue.jtime t),
      ("_id", JValue.jstr idv)]).Nodup := by
  simp

theorem metaGet_stamped_source (d : Doc) (u : String) (t : Nat) :
    metaGet (stamped d u t) "source_url" = some (.jstr u) := by
  rw [metaGet_stamped, dGet_dUpdate _ _ _ (stampFieldsNodup u t (generate_document_id u))]
  simp [dGet]

theorem metaGet_stamped_ts (d : Doc) (u : String) (t : Nat) :
    metaGet (stamped d u t) "scrape_timestamp" = some (.jtime t) := by
  rw [metaGet_stamped, dGet_dUpdate _ _ _ (stampFieldsNodup u t (generate_document_id u))]
  simp [dGet]

theorem metaGet_stamped_id (d : Doc) (u : String) (t : Nat) :
    metaGet (stamped d u t) "_id" = some (.jstr (generate_document_id u)) := by
  rw [metaGet_stamped, dGet_dUpdate _ _ _ (stampFieldsNodup u t (generate_document_id u))]
  simp [dGet]

theorem metaGet_stamped_other (d : Doc) (u : String) (t : Nat) (k : String)
    (h1 : k ≠ "source_url") (h2 : k ≠ "scrape_timestamp") (h3 : k ≠ "_id") :
    metaGet (stamped d u t) k = dGet (metaFields d) k := by
  rw [metaGet_stamped, dGet_dUpdate _ _ _ (stampFieldsNodup u t (generate_document_id u))]
  have hz : dGet [("source_url", JValue.jstr u), ("scrape_timestamp", JValue.jtime t),
      ("_id", JValue.jstr (generate_document_id u))] k = none := by
    apply dGet_eq_none_of_not_mem
    simp [h1, h2, h3]
  rw [hz]

theorem dGet_stamped_ne (d : Doc) (u : String) (t : Nat) (k : String)
    (hk : k ≠ "metadata") :
    dGet (stamped d u t) k = dGet d k := by
  unfold stamped
  rw [dGet_dSet_ne _ _ _ _ hk]
  by_cases hh : dHas d "metadata" = true
  · rw [if_pos hh]
  · rw [if_neg hh, dGet_dSet_ne _ _ _ _ hk]

theorem dNodup_stamped (d : Doc) (u : String) (t : Nat) (h : dNodup d) :
    dNodup (stamped d u t) := by
  unfold stamped
  by_cases hh : dHas d "metadata" = true
  · rw [if_pos hh]
    exact dNodup_dSet _ _ _ h
  · rw [if_neg hh]
    exact dNodup_dSet _ _ _ (dNodup_dSet _ _ _ h)

/-! ### Lemmas about the batch loop -/

theorem processStep_outcome (env : Env) (i : Nat) (url : String) (store : Store) :
    (processStep env i url store).outcome = stepOutcome env i url := by
  unfold processStep stepOutcome fetchResult
  rcases (fetch_page_content (env.respond i) url).result with _ | pc
  · rfl
  · by_cases hg : (!pc.isEmpty && dHas pc "data") = true
    · simp only [hg, if_true]
      rcases env.extract (contentOf pc) url with _ | sd
      · rfl
      · by_cases hsd : sd.isEmpty = true
        · simp [hsd]
        · simp [hsd, save_ok_eq]
    · simp [hg]

theorem processStep_record (env : Env) (i : Nat) (url : String) (store : Store) :
    (processStep env i url store).record = stepRecord env i url := by
  unfold processStep stepRecord fetchResult
  rcases (fetch_page_content (env.respond i) url).result with _ | pc
  · rfl
  · by_cases hg : (!pc.isEmpty && dHas pc "data") = true
    · simp only [hg, if_true]
      rcases env.extract (contentOf pc) url with _ | sd
      · rfl
      · by_cases hsd : sd.isEmpty = true
        · simp [hsd]
        · simp [hsd, save_data_eq]
    · simp [hg]

theorem processFrom_outcomes (env : Env) (urls : List String) :
    ∀ i store, (processFrom env i urls store).outcomes = outcomesFrom env i urls := by
  induction urls with
  | nil => intro i store; rfl
  | cons u rest ih =>
      intro i store
      simp [processFrom, outcomesFrom, processStep_outcome, ih]

theorem processFrom_results (env : Env) (urls : List String) :
    ∀ i store, (processFrom env i urls store).results = recordsFrom env i urls := by
  induction urls with
  | nil => intro i store; rfl
  | cons u rest ih =>
      intro i store
      simp [processFrom, recordsFrom, processStep_record, ih]

theorem outcomesFrom_length (env : Env) (urls : List String) :
    ∀ i, (outcomesFrom env i urls).length = urls.length := by
  induction urls with
  | nil => intro i; rfl
  | cons u rest ih => intro i; simp [outcomesFrom, ih]

theorem save_spec_true (store : Store) (data : Doc) (url : String) (now : Nat)
    (h : metadataOkb data = true) :
    save_to_mongodb true store data url now =
      { store := mongoUpsert store (generate_document_id url) (stamped data url now),
        data := stamped data url now, ok := true } := by
  rw [save_spec true store data url now h]
  simp

theorem save_spec_false (store : Store) (data : Doc) (url : String) (now : Nat)
    (h : metadataOkb data = true) :
    save_to_mongodb false store data url now =
      { store := store, data := stamped data url now, ok := false } := by
  rw [save_spec false store data url now h]
  simp

theorem metaGet_dUpdate (d f : Doc) (k : String) (hf : dNodup f)
    (hh : (dGet f "metadata").isSome) :
    metaGet (dUpdate d f) k = metaGet f k := by
  unfold metaGet
  rw [dGet_dUpdate d f "metadata" hf]
  rcases hv : dGet f "metadata" with _ | v
  · rw [hv] at hh
    exact absurd hh (by simp)
  · rfl

theorem processStep_success (env : Env) (i : Nat) (u : String) (store : Store)
    (txt : String) (pc sd : Doc)
    (hr : env.respond i (jinaRequest u) = .resp 200 txt (some pc))
    (hpc : pc.isEmpty = false) (hd : dHas pc "data" = true)
    (he : env.extract (contentOf pc) u = some sd) (hne : sd.isEmpty = false)
    (hm : metadataOkb sd = true) (hso : env.storeOk i = true) :
    processStep env i u store =
      { store := mongoUpsert store (generate_document_id u) (stamped sd u (env.clock i)),
        record := some (stamped sd u (env.clock i)),
        outcome := .processed true } := by
  have hfr : (fetch_page_content (env.respond i) u).result = some pc := by
    unfold fetch_page_content
    simp [hr]
  unfold processStep
  rw [hfr]
  simp [hpc, hd, he, hne, hso, save_spec_true store sd u (env.clock i) hm]

theorem processStep_exn (env : Env) (i : Nat) (u : String) (store : Store) (c : String)
    (hr : env.respond i (jinaRequest u) = .exn c) :
    processStep env i u store = { store := store, record := none, outcome := .noContent } := by
  have hfr : (fetch_page_content (env.respond i) u).result = none := by
    unfold fetch_page_content
    simp [hr]
  unfold processStep
  rw [hfr]

theorem process_single_url_outcome (env : Env) (store : Store) (url : String)
    (f : Option String) :
    (process_single_url env store url f).outcome = stepOutcome env 0 url := by
  unfold process_single_url stepOutcome fetchResult
  rcases (fetch_page_content (env.respond 0) url).result with _ | pc
  · rfl
  · by_cases hg : (!pc.isEmpty && dHas pc "data") = true
    · simp only [hg, if_true]
      rcases env.extract (contentOf pc) url with _ | sd
      · rfl
      · by_cases hsd : sd.isEmpty = true
        · simp [hsd]
        · simp [hsd, save_ok_eq]
    · simp [hg]

theorem stepRecord_storeOk_indep (env : Env) (alt : Nat → Bool) (i : Nat) (u : String) :
    stepRecord { env with storeOk := alt } i u = stepRecord env i u := by
  unfold stepRecord fetchResult
  rcases (fetch_page_content (env.respond i) u).result with _ | pc
  · rfl
  · by_cases hg : (!pc.isEmpty && dHas pc "data") = true
    · simp only [hg, if_true]
      rcases env.extract (contentOf pc) u with _ | sd
      · rfl
      · by_cases hsd : sd.isEmpty = true
        · simp [hsd]
        · simp [hsd, save_data_eq]
    · simp [hg]

theorem recordsFrom_storeOk_indep (env : Env) (alt : Nat → Bool) (urls : List String) :
    ∀ i, recordsFrom { env with storeOk := alt } i urls = recordsFrom env i urls := by
  induction urls with
  | nil => intro i; rfl
  | cons u rest ih =>
      intro i
      simp [recordsFrom, stepRecord_storeOk_indep, ih]

theorem recordsFrom_stamped (env : Env) (urls : List String)
    (hex : ∀ c u d, env.extract c u = some d → metadataOkb d = true) :
    ∀ i d, d ∈ recordsFrom env i urls → ∃ u t2, u ∈ urls ∧
      metaGet d "source_url" = some (.jstr u) ∧
      metaGet d "scrape_timestamp" = some (.jtime t2) ∧
      metaGet d "_id" = some (.jstr (generate_document_id u)) := by
  induction urls with
  | nil => intro i d hd; simp [recordsFrom] at hd
  | cons u rest ih =>
      intro i d hd
      simp only [recordsFrom, List.mem_append] at hd
      rcases hd with hd | hd
      · rcases hrec : stepRecord env i u with _ | rec
        · rw [hrec] at hd
          simp at hd
        · rw [hrec] at hd
          simp only [Option.toList_some, List.mem_singleton] at hd
          subst hd
          unfold stepRecord fetchResult at hrec
          rcases hres : (fetch_page_content (env.respond i) u).result with _ | pc
          · rw [hres] at hrec
            exact Option.noConfusion hrec
          · rw [hres] at hrec
            by_cases hg : (!pc.isEmpty && dHas pc "data") = true
            · simp only [hg, if_true] at hrec
              rcases hext : env.extract (contentOf pc) u with _ | sd
              · rw [hext] at hrec
                exact Option.noConfusion hrec
              · rw [hext] at hrec
                by_cases hsd : sd.isEmpty = true
                · simp [hsd] at hrec
                · have hmok := hex _ _ _ hext
                  simp [hsd] at hrec
                  rw [save_data_eq, hmok] at hrec
                  simp at hrec
                  subst hrec
                  exact ⟨u, env.clock i, by simp, metaGet_stamped_source _ _ _,
                    metaGet_stamped_ts _ _ _, metaGet_stamped_id _ _ _⟩
            · simp [hg] at hrec
      · rcases ih (i + 1) d hd with ⟨u2, t2, hu2, h1, h2, h3⟩
        exact ⟨u2, t2, by simp [hu2], h1, h2, h3⟩

theorem storedAfterUpdate (dprev data : Doc) (url : String) (t2 : Nat) (hd : dNodup data) :
    metaGet (dUpdate dprev (stamped data url t2)) "scrape_timestamp" = some (.jtime t2) ∧
    ∀ k, (dGet (stamped data url t2) k).isSome →
      dGet (dUpdate dprev (stamped data url t2)) k = dGet (stamped data url t2) k := by
  constructor
  · rw [metaGet_dUpdate _ _ _ (dNodup_stamped data url t2 hd) (by simp [dGet_stamped_metadata])]
    exact metaGet_stamped_ts data url t2
  · intro k hk
    rw [dGet_dUpdate _ _ _ (dNodup_stamped data url t2 hd)]
    rcases hv : dGet (stamped data url t2) k with _ | v
    · rw [hv] at hk
      exact absurd hk (by simp)
    · rfl

/-! ### The claims -/

/-- Claim C1 (counterexample): the claim asserts
`identify(u1) != identify(u2)` whenever `u1 != u2`.  This fails:
`collA` and `collB` are two distinct 72-byte ASCII strings whose MD5
digests — hence whose identities under `generate_document_id` — are
equal. -/
theorem C1_counterexample :
    collA ≠ collB ∧ generate_document_id collA = generate_document_id collB :=
  ⟨by decide, by decide⟩

/-- Claim C1 (amended): the identity generator is a pure function
applying MD5 over the UTF-8 bytes of the exact URL string and returning
the hex digest; repeated calls on the same `u` return the same value;
no normalization is applied, so URLs differing only in trailing slash,
query order, or casing yield different identities.  (Injectivity on all
distinct strings does not hold, MD5 collisions existing.) -/
theorem C1_identity_deterministic :
    (∀ u : String, generate_document_id u = md5Hex (utf8Bytes u)) ∧
    (∀ u : String, generate_document_id u = generate_document_id u) ∧
    generate_document_id "https://example.com/product" ≠
      generate_document_id "https://example.com/product/" ∧
    generate_document_id "https://example.com/item?a=1&b=2" ≠
      generate_document_id "https://example.com/item?b=2&a=1" ∧
    generate_document_id "https://EXAMPLE.com/product" ≠
      generate_document_id "https://example.com/product" :=
  ⟨fun _ => rfl, fun _ => rfl, by decide, by decide, by decide⟩

/-- Claim C2 (counterexample): the claim calls the write "a full
document replace of the stamped record".  It is a `$set` field merge:
starting from `staleStore`, which already holds a document with a field
`stale` under `urlW`'s identity, persisting a record without that field
leaves `stale` in the stored document, so the stored document is not
the stamped record. -/
theorem C2_counterexample :
    dHas (save_to_mongodb true staleStore sdW urlW 5).data "stale" = false ∧
    (match sGet (save_to_mongodb true staleStore sdW urlW 5).store
        (generate_document_id urlW) with
     | some d => dHas d "stale"
     | none => false) = true ∧
    sGet (save_to_mongodb true staleStore sdW urlW 5).store (generate_document_id urlW) ≠
      some (save_to_mongodb true staleStore sdW urlW 5).data := by
  have h1 : dHas (save_to_mongodb true staleStore sdW urlW 5).data "stale" = false := by decide
  have h2 : (match sGet (save_to_mongodb true staleStore sdW urlW 5).store
      (generate_document_id urlW) with
     | some d => dHas d "stale"
     | none => false) = true := by decide
  refine ⟨h1, h2, fun hc => ?_⟩
  rw [hc] at h2
  have h3 : dHas (save_to_mongodb true staleStore sdW urlW 5).data "stale" = true := h2
  rw [h1] at h3
  exact Bool.noConfusion h3

/-- Claim C2 (amended): persisting the same `(url, record)` pair twice
leaves exactly one `StoredDocument` for that URL's identity, carrying
the latest `scrape_timestamp`; the write is a keyed upsert — insert if
the key is absent, `$set` merge of the stamped record's top-level
fields if present — so re-processing a URL yields an unchanged identity
and, for every field of the latest stamped record, the latest value
(last-write-wins on the written fields). -/
theorem C2_idempotent_upsert (store : Store) (data : Doc) (url : String) (t1 t2 : Nat)
    (hs : (store.map Prod.fst).Nodup) (hd : dNodup data) (hm : metadataOkb data = true) :
    countId (save_to_mongodb true (save_to_mongodb true store data url t1).store
        data url t2).store (generate_document_id url) = 1 ∧
    (∃ d, sGet (save_to_mongodb true (save_to_mongodb true store data url t1).store
          data url t2).store (generate_document_id url) = some d ∧
        metaGet d "scrape_timestamp" = some (.jtime t2) ∧
        ∀ k, (dGet (stamped data url t2) k).isSome →
          dGet d k = dGet (stamped data url t2) k) ∧
    (sGet store (generate_document_id url) = none →
      sGet (save_to_mongodb true store data url t1).store (generate_document_id url) =
        some (stamped data url t1)) := by
  have e1 := save_spec_true store data url t1 hm
  have e2 := save_spec_true (mongoUpsert store (generate_document_id url)
    (stamped data url t1)) data url t2 hm
  simp only [e1, e2]
  have hn1 := storeNodup_mongoUpsert store (generate_document_id url) (stamped data url t1) hs
  have hn2 := storeNodup_mongoUpsert _ (generate_document_id url) (stamped data url t2) hn1
  refine ⟨?_, ?_, ?_⟩
  · apply countId_eq_one _ _ hn2
    rw [sGet_mongoUpsert_self]
    rfl
  · rcases h0 : sGet store (generate_document_id url) with _ | d0
    · have hs1 : sGet (mongoUpsert store (generate_document_id url) (stamped data url t1))
          (generate_document_id url) = some (stamped data url t1) := by
        rw [sGet_mongoUpsert_self, h0]
      have hs2 : sGet (mongoUpsert (mongoUpsert store (generate_document_id url)
            (stamped data url t1)) (generate_document_id url) (stamped data url t2))
          (generate_document_id url) =
          some (dUpdate (stamped data url t1) (stamped data url t2)) := by
        rw [sGet_mongoUpsert_self, hs1]
      exact ⟨_, hs2, (storedAfterUpdate _ data url t2 hd).1,
        (storedAfterUpdate _ data url t2 hd).2⟩
    · have hs1 : sGet (mongoUpsert store (generate_document_id url) (stamped data url t1))
          (generate_document_id url) = some (dUpdate d0 (stamped data url t1)) := by
        rw [sGet_mongoUpsert_self, h0]
      have hs2 : sGet (mongoUpsert (mongoUpsert store (generate_document_id url)
            (stamped data url t1)) (generate_document_id url) (stamped data url t2))
          (generate_document_id url) =
          some (dUpdate (dUpdate d0 (stamped data url t1)) (stamped data url t2)) := by
        rw [sGet_mongoUpsert_self, hs1]
      exact ⟨_, hs2, (storedAfterUpdate _ data url t2 hd).1,
        (storedAfterUpdate _ data url t2 hd).2⟩
  · intro h0
    rw [sGet_mongoUpsert_self, h0]

/-- Witness for the amended C2 at the empty store with record `sdW`. -/
theorem C2_idempotent_upsert_witness :
    ((([] : Store).map Prod.fst).Nodup ∧ dNodup sdW ∧ metadataOkb sdW = true) ∧
    countId (save_to_mongodb true (save_to_mongodb true [] sdW urlW 1).store
        sdW urlW 2).store (generate_document_id urlW) = 1 :=
  ⟨⟨by simp, by decide, by decide⟩,
    (C2_idempotent_upsert [] sdW urlW 1 2 (by simp) (by decide) (by decide)).1⟩

/-- Claim C3: before writing, `save_to_mongodb` stamps the record's
metadata block with `source_url = url`, `scrape_timestamp = now`, and
the derived identity as the document key; consequently, after
persistence, `metadata.source_url` equals the input URL exactly, the
`metadata.scrape_timestamp` is the clock value at the call, no earlier
than the batch start time, `metadata._id` is the derived identity, and
on a successful write the store holds a document under that key. -/
theorem C3_metadata_stamping (ok : Bool) (store : Store) (data : Doc) (url : String)
    (t0 now : Nat) (hm : metadataOkb data = true) (ht : t0 ≤ now) :
    metaGet (save_to_mongodb ok store data url now).data "source_url" = some (.jstr url) ∧
    (∃ t, metaGet (save_to_mongodb ok store data url now).data "scrape_timestamp" =
        some (.jtime t) ∧ t0 ≤ t) ∧
    metaGet (save_to_mongodb ok store data url now).data "_id" =
      some (.jstr (generate_document_id url)) ∧
    (ok = true →
      (sGet (save_to_mongodb ok store data url now).store (generate_document_id url)).isSome) := by
  have he := save_spec ok store data url now hm
  rw [he]
  refine ⟨metaGet_stamped_source data url now, ⟨now, metaGet_stamped_ts data url now, ht⟩,
    metaGet_stamped_id data url now, ?_⟩
  intro hok
  subst hok
  show (sGet (mongoUpsert store (generate_document_id url) (stamped data url now))
    (generate_document_id url)).isSome
  rw [sGet_mongoUpsert_self]
  rfl

/-- Witness for C3 at a concrete save. -/
theorem C3_metadata_stamping_witness :
    (metadataOkb sdW = true ∧ 0 ≤ 5) ∧
    metaGet (save_to_mongodb true [] sdW urlW 5).data "source_url" = some (.jstr urlW) :=
  ⟨⟨by decide, by decide⟩, (C3_metadata_stamping true [] sdW urlW 0 5 (by decide) (by decide)).1⟩

/-- Claim C4: every per-URL failure is local and non-fatal — each URL
of a batch receives an outcome (nothing aborts the loop), the outcome
of each URL is a function of that URL's own collaborators alone, and in
a 3-URL batch whose second URL fails its fetch while the others succeed
at every stage, URLs 1 and 3 complete their full pipeline and their
documents are in the store. -/
theorem C4_failure_isolation :
    (∀ env urls store f, (process_urls env urls store f).outcomes.length = urls.length) ∧
    (∀ env urls store f, (process_urls env urls store f).outcomes = outcomesFrom env 0 urls) ∧
    (∀ env u1 u2 u3 store txt1 pc1 sd1 txt3 pc3 sd3,
      env.respond 0 (jinaRequest u1) = .resp 200 txt1 (some pc1) →
      pc1.isEmpty = false → dHas pc1 "data" = true →
      env.extract (contentOf pc1) u1 = some sd1 → sd1.isEmpty = false →
      metadataOkb sd1 = true → env.storeOk 0 = true →
      env.respond 1 (jinaRequest u2) = .exn "timeout" →
      env.respond 2 (jinaRequest u3) = .resp 200 txt3 (some pc3) →
      pc3.isEmpty = false → dHas pc3 "data" = true →
      env.extract (contentOf pc3) u3 = some sd3 → sd3.isEmpty = false →
      metadataOkb sd3 = true → env.storeOk 2 = true →
      (process_urls env [u1, u2, u3] store none).outcomes =
        [.processed true, .noContent, .processed true] ∧
      (sGet (process_urls env [u1, u2, u3] store none).store
        (generate_document_id u1)).isSome ∧
      (sGet (process_urls env [u1, u2, u3] store none).store
        (generate_document_id u3)).isSome) := by
  refine ⟨?_, ?_, ?_⟩
  · intro env urls store f
    simp [process_urls, processFrom_outcomes, outcomesFrom_length]
  · intro env urls store f
    simp [process_urls, processFrom_outcomes]
  · intro env u1 u2 u3 store txt1 pc1 sd1 txt3 pc3 sd3
      h1 h2 h3 h4 h5 h6 h7 h8 h9 h10 h11 h12 h13 h14 h15
    have s1 : ∀ st, processStep env 0 u1 st =
        { store := mongoUpsert st (generate_document_id u1) (stamped sd1 u1 (env.clock 0)),
          record := some (stamped sd1 u1 (env.clock 0)), outcome := .processed true } :=
      fun st => processStep_success env 0 u1 st txt1 pc1 sd1 h1 h2 h3 h4 h5 h6 h7
    have s2 : ∀ st, processStep env 1 u2 st =
        { store := st, record := none, outcome := .noContent } :=
      fun st => processStep_exn env 1 u2 st "timeout" h8
    have s3 : ∀ st, processStep env 2 u3 st =
        { store := mongoUpsert st (generate_document_id u3) (stamped sd3 u3 (env.clock 2)),
          record := some (stamped sd3 u3 (env.clock 2)), outcome := .processed true } :=
      fun st => processStep_success env 2 u3 st txt3 pc3 sd3 h9 h10 h11 h12 h13 h14 h15
    have key : processFrom env 0 [u1, u2, u3] store =
        { store := mongoUpsert (mongoUpsert store (generate_document_id u1)
              (stamped sd1 u1 (env.clock 0)))
            (generate_document_id u3) (stamped sd3 u3 (env.clock 2)),
          results := [stamped sd1 u1 (env.clock 0), stamped sd3 u3 (env.clock 2)],
          outcomes := [.processed true, .noContent, .processed true] } := by
      simp [processFrom, s1, s2, s3]
    refine ⟨?_, ?_, ?_⟩
    · simp [process_urls, key]
    · simp only [process_urls, key]
      exact sGet_mongoUpsert_isSome _ _ _ _ (by rw [sGet_mongoUpsert_self]; rfl)
    · simp only [process_urls, key]
      rw [sGet_mongoUpsert_self]
      rfl

/-- Witness for C4: with the concrete collaborators `envW` (fetch at
position 1 times out, all else succeeds) the 3-URL batch produces the
expected outcome sequence. -/
theorem C4_failure_isolation_witness :
    (envW.respond 1 (jinaRequest urlW2) = .exn "timeout" ∧ metadataOkb sdW = true) ∧
    (process_urls envW [urlW, urlW2, urlW3] [] none).outcomes =
      [.processed true, .noContent, .processed true] :=
  ⟨⟨rfl, by decide⟩,
    (C4_failure_isolation.2.2 envW urlW urlW2 urlW3 [] "ok" pcW sdW "ok" pcW sdW
      rfl (by decide) (by decide) rfl (by decide) (by decide) rfl
      rfl rfl (by decide) (by decide) rfl (by decide) (by decide) rfl).1⟩

/-- Claim C5 (counterexample): the claim says a non-success status
yields a failure value, never content.  A final status of 300 (not 200
and not an HTTP error status, so `raise_for_status` does not raise)
with a parseable JSON body makes `fetch_page_content` return that
parsed body — content, not a failure. -/
theorem C5_counterexample :
    (fetch_page_content (fun _ => .resp 300 "multiple choices" (some pcW)) urlW).result =
      some pcW ∧ (300 : Nat) ≠ 200 := by
  constructor
  · rfl
  · decide

/-- Claim C5 (amended): each call builds exactly one outbound request,
with the 30-unit timeout; on an HTTP error status (4xx/5xx) it returns
a failure value with the response body captured for diagnostics; on a
network-level exception it returns a failure value; on status 200 it
returns the parsed body; and on any other status it also returns the
parsed body (after capturing the body text), rather than a failure. -/
theorem C5_single_bounded_request (respond : HttpRequest → HttpOutcome) (url : String) :
    (jinaRequest url).timeoutSeconds = 30 ∧
    (fetch_page_content respond url).requested = [jinaRequest url] ∧
    (∀ s txt j, 400 ≤ s → s < 600 →
      fetch_page_content (fun _ => .resp s txt j) url =
        { result := none, diagLog := [txt], requested := [jinaRequest url] }) ∧
    (∀ c, fetch_page_content (fun _ => .exn c) url =
        { result := none, diagLog := [c], requested := [jinaRequest url] }) ∧
    (∀ txt j, fetch_page_content (fun _ => .resp 200 txt j) url =
        { result := j, diagLog := [], requested := [jinaRequest url] }) ∧
    (∀ s txt j, s ≠ 200 → ¬(400 ≤ s ∧ s < 600) →
      fetch_page_content (fun _ => .resp s txt j) url =
        { result := j, diagLog := [txt], requested := [jinaRequest url] }) := by
  refine ⟨rfl, ?_, ?_, ?_, ?_, ?_⟩
  · rcases hr : respond (jinaRequest url) with ⟨s, txt, j⟩ | c
    · by_cases hs1 : s ≠ 200
      · by_cases hs2 : 400 ≤ s ∧ s < 600
        · simp [fetch_page_content, hr, hs1, hs2]
        · simp [fetch_page_content, hr, hs1, hs2]
      · simp [fetch_page_content, hr, hs1]
    · simp [fetch_page_content, hr]
  · intro s txt j h4 h6
    have hs1 : s ≠ 200 := by omega
    simp [fetch_page_content, hs1, h4, h6]
  · intro c
    rfl
  · intro txt j
    simp [fetch_page_content]
  · intro s txt j hs1 hs2
    simp [fetch_page_content, hs1, hs2]

/-- Witness for the amended C5: a 404 with a body is a failure with the
body captured. -/
theorem C5_single_bounded_request_witness :
    ((400 : Nat) ≤ 404 ∧ (404 : Nat) < 600) ∧
    fetch_page_content (fun _ => .resp 404 "not found" none) urlW =
      { result := none, diagLog := ["not found"], requested := [jinaRequest urlW] } :=
  ⟨⟨by decide, by decide⟩,
    (C5_single_bounded_request (fun _ => .resp 404 "not found" none) urlW).2.2.1
      404 "not found" none (by decide) (by decide)⟩

/-- Claim C6: a URL whose fetch fails or returns no usable content is
skipped — extraction is attempted exactly when the fetch result is
truthy and carries the `data` field — and a URL whose extraction yields
nothing after a successful fetch is skipped before persistence; a
skipped URL leaves the store untouched and contributes no record. -/
theorem C6_skip_semantics (env : Env) (i : Nat) (u : String) (store : Store) :
    (stepOutcome env i u ≠ .noContent ↔ contentPresent (fetchResult env i u) = true) ∧
    ((∃ b, stepOutcome env i u = .processed b) ↔
      ∃ pc sd, fetchResult env i u = some pc ∧ contentPresent (some pc) = true ∧
        env.extract (contentOf pc) u = some sd ∧ sd.isEmpty = false) ∧
    ((∀ b, stepOutcome env i u ≠ .processed b) →
      (processStep env i u store).store = store ∧
      (processStep env i u store).record = none) := by
  unfold stepOutcome processStep contentPresent fetchResult
  rcases (fetch_page_content (env.respond i) u).result with _ | pc
  · refine ⟨by simp, ⟨?_, ?_⟩, fun _ => by simp⟩
    · rintro ⟨b, hb⟩
      exact absurd hb (by simp)
    · rintro ⟨pc, sd, hpc, hcp, hext, hne⟩
      exact Option.noConfusion hpc
  · by_cases hg : (!pc.isEmpty && dHas pc "data") = true
    · simp only [hg, if_true]
      rcases hext : env.extract (contentOf pc) u with _ | sd
      · refine ⟨by simp [hg], ⟨?_, ?_⟩, fun _ => by simp⟩
        · rintro ⟨b, hb⟩
          exact absurd hb (by simp)
        · rintro ⟨pc2, sd2, hpc2, hcp2, hext2, hne2⟩
          obtain rfl : pc2 = pc := by
            injection hpc2 with h
            exact h.symm
          rw [hext] at hext2
          exact Option.noConfusion hext2
      · by_cases hsd : sd.isEmpty = true
        · simp only [hsd, if_true]
          refine ⟨by simp [hg], ⟨?_, ?_⟩, fun _ => by simp⟩
          · rintro ⟨b, hb⟩
            exact absurd hb (by simp)
          · rintro ⟨pc2, sd2, hpc2, hcp2, hext2, hne2⟩
            obtain rfl : pc2 = pc := by
              injection hpc2 with h
              exact h.symm
            rw [hext] at hext2
            obtain rfl : sd2 = sd := by
              injection hext2 with h
              exact h.symm
            rw [hsd] at hne2
            exact Bool.noConfusion hne2
        · have hsd' : sd.isEmpty = false := by simpa using hsd
          simp only [hsd', Bool.false_eq_true, if_false]
          refine ⟨by simp [hg], ⟨?_, ?_⟩, ?_⟩
          · intro _
            exact ⟨pc, sd, rfl, hg, hext, hsd'⟩
          · rintro ⟨pc2, sd2, hpc2, hcp2, hext2, hne2⟩
            exact ⟨metadataOkb sd && env.storeOk i, rfl⟩
          · intro hno
            exact absurd rfl (hno (metadataOkb sd && env.storeOk i))
    · have hg' : (!pc.isEmpty && dHas pc "data") = false := by simpa using hg
      simp only [hg', Bool.false_eq_true, if_false]
      refine ⟨by simp [hg'], ⟨?_, ?_⟩, fun _ => by simp⟩
      · rintro ⟨b, hb⟩
        exact absurd hb (by simp)
      · rintro ⟨pc2, sd2, hpc2, hcp2, hext2, hne2⟩
        injection hpc2 with hpc2e
        rw [hpc2e] at hg'
        have hcp2' : (!pc2.isEmpty && dHas pc2 "data") = true := hcp2
        rw [hg'] at hcp2'
        exact Bool.noConfusion hcp2'

/-- Witness for C6 at a URL whose fetch times out: the step is skipped
and the store is untouched. -/
theorem C6_skip_semantics_witness :
    (∀ b, stepOutcome envW 1 urlW2 ≠ .processed b) ∧
    ((processStep envW 1 urlW2 staleStore).store = staleStore ∧
      (processStep envW 1 urlW2 staleStore).record = none) :=
  ⟨fun b => by cases b <;> decide,
    (C6_skip_semantics envW 1 urlW2 staleStore).2.2 (fun b => by cases b <;> decide)⟩

/-- Claim C7: when an output path is supplied the accumulated records
are written exactly once, at the end, as the single accumulated array;
with no output path nothing is written; the exported array is exactly
the ordered sequence of successfully extracted (stamped) records, one
per successful URL in input order, and it does not depend on whether
the store writes succeeded. -/
theorem C7_export_once (env : Env) (urls : List String) (store : Store) :
    (∀ f, (process_urls env urls store (some f)).writes =
      [(f, (process_urls env urls store (some f)).results)]) ∧
    (process_urls env urls store none).writes = [] ∧
    (∀ f, (process_urls env urls store f).results = recordsFrom env 0 urls) ∧
    (∀ alt f, (process_urls { env with storeOk := alt } urls store f).results =
      (process_urls env urls store f).results) := by
  refine ⟨fun f => rfl, rfl, fun f => ?_, fun alt f => ?_⟩
  · simp [process_urls, processFrom_results]
  · simp [process_urls, processFrom_results, recordsFrom_storeOk_indep]

/-- Claim C8: the batch produces one outcome per input URL, in input
order, each determined by that URL's own collaborators; the loop is
sequential — the head URL's whole fetch/extract/persist step completes
(its store effect applied) before the rest of the list is processed —
and `process_single_url` likewise yields the per-URL outcome. -/
theorem C8_run_contract (env : Env) (urls : List String) (store : Store) (f : Option String)
    (u : String) (rest : List String) (i : Nat) (st : Store) :
    (process_urls env urls store f).outcomes.length = urls.length ∧
    (process_urls env urls store f).outcomes = outcomesFrom env 0 urls ∧
    processFrom env i (u :: rest) st =
      { store := (processFrom env (i + 1) rest (processStep env i u st).store).store,
        results := (processStep env i u st).record.toList ++
          (processFrom env (i + 1) rest (processStep env i u st).store).results,
        outcomes := (processStep env i u st).outcome ::
          (processFrom env (i + 1) rest (processStep env i u st).store).outcomes } ∧
    (process_single_url env st u f).outcome = stepOutcome env 0 u := by
  refine ⟨?_, ?_, rfl, process_single_url_outcome env st u f⟩
  · simp [process_urls, processFrom_outcomes, outcomesFrom_length]
  · simp [process_urls, processFrom_outcomes]

/-- Claim C9: the only fatal startup condition is a missing or empty
rendering credential (`JINA_API_KEY`), which halts the program before
any URL is processed; absent optional configuration — the
language-model credential and the document-store connection string —
does not halt startup, and the run proceeds unchanged. -/
theorem C9_startup_fail_fast (o m : Option String) (env : Env) (urls : List String)
    (f : Option String) (k : String) (hk : k ≠ "") :
    runProgram none o m env urls f =
      .error "JINA_API_KEY not found in environment variables" ∧
    runProgram (some "") o m env urls f =
      .error "JINA_API_KEY not found in environment variables" ∧
    runProgram (some k) o m env urls f = .ok (process_urls env urls [] f) := by
  refine ⟨rfl, rfl, ?_⟩
  unfold runProgram startup pyTruthy
  simp [hk]

/-- Witness for C9: with a present rendering credential and both
optional credentials absent, the program runs. -/
theorem C9_startup_fail_fast_witness :
    ("jina-key" ≠ "") ∧
    runProgram (some "jina-key") none none envW [urlW] none =
      .ok (process_urls envW [urlW] [] none) :=
  ⟨by decide, (C9_startup_fail_fast none none envW [urlW] none "jina-key" (by decide)).2.2⟩

/-- Claim C10: `save_to_mongodb` mutates the caller's record only
within its metadata block — every top-level key other than `metadata`
is unchanged, exactly `source_url`, `scrape_timestamp` and `_id` are
set in the metadata (with `_id` the derived identity) and every other
pre-existing metadata key keeps its value; the stamping happens before
the store write and is retained when the write fails (the store is then
untouched); consequently every record the batch accumulates for export
carries the stamped metadata including `_id`. -/
theorem C10_mutation_frame (ok : Bool) (store : Store) (data : Doc) (url : String) (t : Nat)
    (hm : metadataOkb data = true) :
    (∀ k, k ≠ "metadata" →
      dGet (save_to_mongodb ok store data url t).data k = dGet data k) ∧
    metaGet (save_to_mongodb ok store data url t).data "source_url" = some (.jstr url) ∧
    metaGet (save_to_mongodb ok store data url t).data "scrape_timestamp" =
      some (.jtime t) ∧
    metaGet (save_to_mongodb ok store data url t).data "_id" =
      some (.jstr (generate_document_id url)) ∧
    (∀ k, k ≠ "source_url" → k ≠ "scrape_timestamp" → k ≠ "_id" →
      metaGet (save_to_mongodb ok store data url t).data k = dGet (metaFields data) k) ∧
    (save_to_mongodb true store data url t).data =
      (save_to_mongodb false store data url t).data ∧
    (save_to_mongodb false store data url t).store = store ∧
    (∀ env urls st d, (∀ c u r, env.extract c u = some r → metadataOkb r = true) →
      d ∈ (process_urls env urls st none).results → ∃ u2 t2, u2 ∈ urls ∧
        metaGet d "source_url" = some (.jstr u2) ∧
        metaGet d "scrape_timestamp" = some (.jtime t2) ∧
        metaGet d "_id" = some (.jstr (generate_document_id u2))) := by
  have he := save_spec ok store data url t hm
  refine ⟨?_, ?_, ?_, ?_, ?_, ?_, ?_, ?_⟩
  · intro k hk
    rw [he]
    exact dGet_stamped_ne data url t k hk
  · rw [he]
    exact metaGet_stamped_source data url t
  · rw [he]
    exact metaGet_stamped_ts data url t
  · rw [he]
    exact metaGet_stamped_id data url t
  · intro k hk1 hk2 hk3
    rw [he]
    exact metaGet_stamped_other data url t k hk1 hk2 hk3
  · rw [save_spec true store data url t hm, save_spec false store data url t hm]
  · rw [save_spec_false store data url t hm]
  · intro env urls st d hex hd
    have hres : (process_urls env urls st none).results = recordsFrom env 0 urls := by
      simp [process_urls, processFrom_results]
    rw [hres] at hd
    exact recordsFrom_stamped env urls hex 0 d hd

/-- Witness for C10: a concrete save stamps `_id` with the derived
identity. -/
theorem C10_mutation_frame_witness :
    metadataOkb sdW = true ∧
    metaGet (save_to_mongodb true staleStore sdW urlW 7).data "_id" =
      some (.jstr (generate_document_id urlW)) :=
  ⟨by decide, (C10_mutation_frame true staleStore sdW urlW 7 (by decide)).2.2.2.1⟩

end Scraper
